import Mathlib

/-!
# Verification of the Loquendon't segment-routing pipeline

Shallow embedding of `Loquendon't.py` (directive parser, voice catalog
lookup, per-segment synthesis loop, concatenation, export and cleanup),
together with theorems settling the frozen claims about its specification.

Strings are modelled as `List Char` (ASCII inputs).  External effects
(engine file creation, audio decoding, export, file removal) enter through
an explicit `Oracles` record; everything else is translated directly from
the source.
-/

set_option autoImplicit false

namespace Loquendont

/-! ## Python string helpers -/

/-- Python whitespace recognised by `str.strip()` (ASCII fragment). -/
def pyIsSpace (c : Char) : Bool :=
  c = ' ' || c = '\t' || c = '\n' || c = '\r' || c = Char.ofNat 11 || c = Char.ofNat 12

/-- Python `str.strip()`: remove whitespace from both ends. -/
def pyStrip (s : List Char) : List Char :=
  ((s.dropWhile pyIsSpace).reverse.dropWhile pyIsSpace).reverse

/-- Python `str.strip(ch)` for a single character argument. -/
def stripChar (ch : Char) (s : List Char) : List Char :=
  ((s.dropWhile (fun c => c = ch)).reverse.dropWhile (fun c => c = ch)).reverse

/-- Model of `content.replace('\n', ' ').replace('\r', '')` from `parse_input_file`. -/
def normalizeNewlines (s : List Char) : List Char :=
  (s.map (fun c => if c = '\n' then ' ' else c)).filter (fun c => c ≠ '\r')

/-! ## The regex `/voice=(\d+)` (re.IGNORECASE)

`matchVoiceAt` models matching the pattern at the start of a string:
the literal tag `/voice=` (letters case-insensitive) followed by a
maximal non-empty run of decimal digits (greedy `\d+`).  On success it
returns the captured digit run and the remainder of the string. -/

/-- The literal characters of the pattern tag, lower case. -/
def voiceTagStr : List Char := ['/', 'v', 'o', 'i', 'c', 'e', '=']

/-- Match `/voice=(\d+)` at the start of `s`; return (digits, rest). -/
def matchVoiceAt (s : List Char) : Option (List Char × List Char) :=
  if (s.take 7).map Char.toLower = voiceTagStr then
    let rest := s.drop 7
    let d := rest.takeWhile Char.isDigit
    if d.isEmpty then none else some (d, rest.drop d.length)
  else none

/-- Leftmost match of the pattern anywhere in `s`:
returns (text before, captured digits, text after). -/
def findVoiceCmd : List Char → Option (List Char × List Char × List Char)
  | [] => none
  | c :: cs =>
    match matchVoiceAt (c :: cs) with
    | some (d, rest) => some ([], d, rest)
    | none =>
      match findVoiceCmd cs with
      | some (pre, d, rest) => some (c :: pre, d, rest)
      | none => none

/-- Fueled worker for `re.split` with the captured group kept:
the result alternates text chunks (even positions) and captured digit
runs (odd positions). -/
def splitVoiceAux : Nat → List Char → List (List Char)
  | 0, s => [s]
  | fuel + 1, s =>
    match findVoiceCmd s with
    | none => [s]
    | some (pre, d, rest) => pre :: d :: splitVoiceAux fuel rest

/-- Model of `VOICE_CMD_PATTERN.split(content)`: every match consumes at least
eight characters, so fuel `s.length` never runs out. -/
def splitVoice (s : List Char) : List (List Char) :=
  splitVoiceAux s.length s

/-- Whether `VOICE_CMD_PATTERN.match(s)` succeeds (anchored at the start,
as Python `re.match`). -/
def voiceCmdMatches (s : List Char) : Bool :=
  (matchVoiceAt s).isSome

/-! ## Python `int()` on the strings reachable in the scan loop

The loop only calls `int(part)` on a stripped string that starts with a
digit.  On such input Python `int` succeeds exactly on decimal digit
runs with single underscores strictly between digits, yielding the
decimal value with the underscores removed. -/

/-- Validity of a digit/underscore literal for `int()` (no sign, already
stripped, first character a digit is required by the caller). -/
def pyIntDigitsValid : List Char → Bool
  | [] => false
  | [c] => c.isDigit
  | c :: d :: rest =>
    c.isDigit && (if d = '_' then pyIntDigitsValid rest else pyIntDigitsValid (d :: rest))

/-- Decimal value of a digit run. -/
def digitsVal (s : List Char) : Nat :=
  s.foldl (fun acc c => 10 * acc + (c.toNat - 48)) 0

/-- Model of `int(part)` as used in the scan loop: `some value` on success,
`none` when it raises `ValueError`. -/
def pyIntParse (s : List Char) : Option Nat :=
  if pyIntDigitsValid s then some (digitsVal (s.filter (fun c => c ≠ '_'))) else none

/-! ## Data model -/

/-- One parsed (text, voice) assignment, as in the spec's Segment. -/
structure Segment where
  text : List Char
  voice_index : Nat
deriving DecidableEq, Repr

/-- The scan loop of `parse_input_file` over the split parts.
`cur` is the current voice cursor. -/
def parseLoop : List (List Char) → Nat → List Segment
  | [], _ => []
  | p :: rest, cur =>
    let part := pyStrip p
    if part = [] then
      parseLoop rest cur
    else if voiceCmdMatches (voiceTagStr ++ part) then
      -- the source tests VOICE_CMD_PATTERN.match(f"/voice=" + part)
      match pyIntParse part with
      | some n => parseLoop rest n
      | none => parseLoop rest cur
    else
      { text := part, voice_index := cur } :: parseLoop rest cur

/-- Model of `parse_input_file`, with the file read replaced by its `content`
(the unreadable-file branches return `[]` before this code runs). -/
def parse_input_file (content : List Char) (default_voice_index : Nat) : List Segment :=
  parseLoop (splitVoice (normalizeNewlines content)) default_voice_index

/-- Entries at even positions of a split list: the text chunks between
directives. -/
def evenEntries {α : Type} : List α → List α
  | [] => []
  | [a] => [a]
  | a :: _ :: rest => a :: evenEntries rest

/-- Entries at odd positions of a split list: the captured digit runs. -/
def oddEntries {α : Type} : List α → List α
  | [] => []
  | [_] => []
  | _ :: b :: rest => b :: oddEntries rest

/-- Does a string start with a decimal digit? -/
def startsWithDigit : List Char → Bool
  | [] => false
  | c :: _ => c.isDigit

/-! ## Voice catalog and engine -/

/-- The two synthesis backends of `UnifiedTTSEngine`. -/
inductive EngineKind where
  | pyttsx3
  | edge
deriving DecidableEq, Repr

/-- One entry of `unified_voices`. -/
structure Voice where
  index : Nat
  engine : EngineKind
  name : List Char
  id : List Char
  lang : List Char
deriving DecidableEq, Repr

/-- The state of `UnifiedTTSEngine` after construction. -/
structure Engine where
  unified_voices : List Voice
  pyttsx3_available : Bool
deriving DecidableEq, Repr

/-- Python `xs[i]` on a list wrapped in try/except IndexError:
negative indices count from the end; out-of-bounds gives `none`. -/
def pyListGet {α : Type} (xs : List α) (i : Int) : Option α :=
  let j : Int := if i < 0 then i + xs.length else i
  if j < 0 then none else xs[j.toNat]?

/-- Model of `UnifiedTTSEngine.get_voice_by_index`. -/
def get_voice_by_index (e : Engine) (index : Int) : Option Voice :=
  pyListGet e.unified_voices index

/-! ## Per-segment synthesis

The outcome of each external save call (pyttsx3 `runAndWait` /
edge-tts `save`, followed by the `os.path.exists` check) is abstracted
by an oracle `saveOk` on the output file path. -/

/-- Model of `UnifiedTTSEngine.synthesize_segment`: returns the final file path on
success, `none` on failure. -/
def synthesize_segment (e : Engine) (saveOk : List Char → Bool)
    (text : List Char) (voice_index : Nat) (base_output_path : List Char) :
    Option (List Char) :=
  match get_voice_by_index e (Int.ofNat voice_index) with
  | none => none
  | some voice =>
    let ext := if voice.engine = EngineKind.pyttsx3 then ".wav".toList else ".mp3".toList
    let output_filepath := base_output_path ++ ext
    match voice.engine with
    | EngineKind.pyttsx3 =>
      if e.pyttsx3_available = false then none
      else if saveOk output_filepath then some output_filepath else none
    | EngineKind.edge =>
      if saveOk output_filepath then some output_filepath else none

/-! ## The pipeline `process_and_concatenate` -/

/-- The `TEMP_DIR` constant. -/
def TEMP_DIR : List Char := "tts_temp_segments".toList

/-- The `default_voice_index` local of `process_and_concatenate`. -/
def pipelineDefaultVoice : Nat := 0

/-- Model of the loop's base path: `TEMP_DIR` joined with the segment
number (POSIX separator). -/
def segBasePath (i : Nat) : List Char :=
  TEMP_DIR ++ "/segment_".toList ++ Nat.toDigits 10 i

/-- What the loop body of `process_and_concatenate` records for one
segment: whether the out-of-range warning fired, the voice index used,
and the path returned by `synthesize_segment` (or `none`). -/
structure SegAttempt where
  warned : Bool
  resolved : Nat
  result : Option (List Char)
deriving DecidableEq, Repr

/-- One iteration of the segment loop (segment number `i`). -/
def attemptSeg (e : Engine) (saveOk : List Char → Bool) (i : Nat) (s : Segment) :
    SegAttempt :=
  if e.unified_voices.length ≤ s.voice_index then
    { warned := true
      resolved := pipelineDefaultVoice
      result := synthesize_segment e saveOk s.text pipelineDefaultVoice (segBasePath i) }
  else
    { warned := false
      resolved := s.voice_index
      result := synthesize_segment e saveOk s.text s.voice_index (segBasePath i) }

/-- The whole segment loop, starting at segment number `i`. -/
def runSegments (e : Engine) (saveOk : List Char → Bool) :
    Nat → List Segment → List SegAttempt
  | _, [] => []
  | i, s :: rest => attemptSeg e saveOk i s :: runSegments e saveOk (i + 1) rest

/-- Everything after the last slash of a path (the whole path when there
is no slash); instantiated with `'.'` it yields the suffix after the
last dot. -/
def afterLastMatch (ch : Char) (p : List Char) : List Char :=
  (p.reverse.takeWhile (fun c => c ≠ ch)).reverse

/-- Model of `os.path.splitext(p)[1]` (POSIX): the extension of the basename,
dot included, where leading dots of the basename never start an
extension. -/
def splitextExt (p : List Char) : List Char :=
  let base := afterLastMatch '/' p
  let core := base.dropWhile (fun c => c = '.')
  if core.contains '.' then '.' :: afterLastMatch '.' core else []

/-- The cleanup loop `for temp_path in temp_files: os.remove(temp_path)`:
returns the files removed before any failure, and the path whose removal
raised (if any); the raise aborts the loop. -/
def cleanupLoop (removeOk : List Char → Bool) :
    List (List Char) → List (List Char) × Option (List Char)
  | [] => ([], none)
  | p :: rest =>
    if removeOk p then
      let r := cleanupLoop removeOk rest
      (p :: r.1, r.2)
    else ([], some p)

/-- External outcomes the pipeline depends on:
`saveOk` — does the engine's save call produce the file at this path;
`decodeOk` — does `AudioSegment.from_file` succeed on this path;
`decode` — the decoded audio of a file (abstract sample list);
`exportOk` — does `combined_audio.export` succeed;
`removeOk` — does `os.remove` succeed on this path;
`rmdirOk` — does `os.rmdir(TEMP_DIR)` succeed. -/
structure Oracles where
  saveOk : List Char → Bool
  decodeOk : List Char → Bool
  decode : List Char → List Int
  exportOk : Bool
  removeOk : List Char → Bool
  rmdirOk : Bool

/-- Observable outcome of one `process_and_concatenate` run. -/
structure RunResult where
  segments : List Segment
  attempts : List SegAttempt
  temp_files : List (List Char)
  noSegments : Bool
  allFailed : Bool
  combined : List Int
  exportTargetUsed : Option (List Char × List Char)
  artifact : Option (List Char × List Char × List Int)
  filesRemoved : List (List Char)
  cleanupError : Option (List Char)
deriving DecidableEq, Repr

/-- Model of `process_and_concatenate`, with the input file read replaced by its
`content`.  `exportTargetUsed` records the (path, format) handed to
`combined_audio.export` when the export step is reached; `artifact` is
present only when the export succeeded; `cleanupError` is the path of
the uncaught exception raised during cleanup, if any. -/
def process_and_concatenate (e : Engine) (o : Oracles)
    (content : List Char) (output_file : List Char) : RunResult :=
  let segments := parse_input_file content pipelineDefaultVoice
  if segments = [] then
    { segments := segments, attempts := [], temp_files := []
      noSegments := true, allFailed := false, combined := []
      exportTargetUsed := none, artifact := none
      filesRemoved := [], cleanupError := none }
  else
    let attempts := runSegments e o.saveOk 0 segments
    let temp_files := attempts.filterMap SegAttempt.result
    if temp_files = [] then
      -- successful_segments == 0: abort before concatenation
      { segments := segments, attempts := attempts, temp_files := temp_files
        noSegments := false, allFailed := true, combined := []
        exportTargetUsed := none, artifact := none
        filesRemoved := [], cleanupError := none }
    else
      let combined := ((temp_files.filter o.decodeOk).map o.decode).flatten
      let extension := stripChar '.' ((splitextExt output_file).map Char.toLower)
      let target :=
        if extension = [] then (output_file ++ ".wav".toList, "wav".toList)
        else (output_file, extension)
      let artifact := if o.exportOk then some (target.1, target.2, combined) else none
      let cleanup := cleanupLoop o.removeOk temp_files
      let cleanupError :=
        match cleanup.2 with
        | some p => some p
        | none => if o.rmdirOk then none else some TEMP_DIR
      { segments := segments, attempts := attempts, temp_files := temp_files
        noSegments := false, allFailed := false, combined := combined
        exportTargetUsed := some target, artifact := artifact
        filesRemoved := cleanup.1, cleanupError := cleanupError }

/-- The synthesis attempt the loop makes for the segment at position `j`
(as an absolute description, for stating order properties). -/
def attemptAt (e : Engine) (saveOk : List Char → Bool)
    (segs : List Segment) (j : Nat) : Option (List Char) :=
  (segs[j]?).bind (fun s => (attemptSeg e saveOk j s).result)

/-- The extension as the specification describes it: the output path's
extension, lower-cased, without the leading dot. -/
def claimedExtension (p : List Char) : List Char :=
  ((splitextExt p).drop 1).map Char.toLower

/-! ## Concrete instances used by witnesses and counterexamples -/

/-- A concrete remote voice. -/
def voiceA : Voice :=
  { index := 0, engine := EngineKind.edge
    name := "Test Voice".toList, id := "test-voice".toList, lang := "en-US".toList }

/-- A catalog holding exactly one voice. -/
def engineOne : Engine :=
  { unified_voices := [voiceA], pyttsx3_available := false }

/-- Oracles for a run where every external step succeeds. -/
def oraclesOk : Oracles :=
  { saveOk := fun _ => true, decodeOk := fun _ => true
    decode := fun p => [Int.ofNat p.length]
    exportOk := true, removeOk := fun _ => true, rmdirOk := true }

/-! ## Parser lemmas -/

/-- The scan loop's test `VOICE_CMD_PATTERN.match("/voice=" + part)`
succeeds exactly when `part` starts with a digit (the pattern is
anchored, its literal prefix is supplied by the f-string, and `\d+`
needs one digit). -/
theorem voiceCmdMatches_append (s : List Char) :
    voiceCmdMatches (voiceTagStr ++ s) = startsWithDigit s := by
  have htake : (voiceTagStr ++ s).take 7 = voiceTagStr := List.take_left' (by decide)
  have hdrop : (voiceTagStr ++ s).drop 7 = s := List.drop_left' (by decide)
  unfold voiceCmdMatches matchVoiceAt
  rw [htake, hdrop]
  have hlow : voiceTagStr.map Char.toLower = voiceTagStr := by decide
  rw [hlow, if_pos rfl]
  cases s with
  | nil => simp [startsWithDigit, List.takeWhile]
  | cons c cs =>
    by_cases h : c.isDigit
    · simp [List.takeWhile, h, startsWithDigit]
    · simp [List.takeWhile, h, startsWithDigit]

/-- The chunks for which the scan loop emits a Segment: non-empty after
stripping and not starting with a digit. -/
def emitsSegment (p : List Char) : Bool :=
  !(pyStrip p).isEmpty && !startsWithDigit (pyStrip p)

/-- Length of the scan loop's output: one Segment per part that is
non-empty after stripping and does not start with a digit, whatever the
cursor. -/
theorem parseLoop_length :
    ∀ (parts : List (List Char)) (cur : Nat),
      (parseLoop parts cur).length = parts.countP emitsSegment
  | [], _ => by simp [parseLoop]
  | p :: rest, cur => by
    rw [List.countP_cons]
    by_cases h1 : pyStrip p = []
    · have he : emitsSegment p = false := by simp [emitsSegment, h1]
      simp [parseLoop, h1, he, parseLoop_length rest cur]
    · by_cases h2 : startsWithDigit (pyStrip p)
      · have he : emitsSegment p = false := by simp [emitsSegment, h2]
        cases hint : pyIntParse (pyStrip p) with
        | none =>
          simp [parseLoop, h1, voiceCmdMatches_append, h2, hint, he,
            parseLoop_length rest cur]
        | some n =>
          simp [parseLoop, h1, voiceCmdMatches_append, h2, hint, he,
            parseLoop_length rest n]
      · have he : emitsSegment p = true := by
          simp [emitsSegment, h2, List.isEmpty_iff, h1]
        simp [parseLoop, h1, voiceCmdMatches_append, h2, he,
          parseLoop_length rest cur]

/-- A successful anchored match captures a digit run that starts with a
digit. -/
theorem matchVoiceAt_digits {s d rest : List Char}
    (h : matchVoiceAt s = some (d, rest)) :
    d ≠ [] ∧ d.all Char.isDigit = true := by
  unfold matchVoiceAt at h
  by_cases hp : (s.take 7).map Char.toLower = voiceTagStr
  · rw [if_pos hp] at h
    by_cases hd : ((s.drop 7).takeWhile Char.isDigit).isEmpty
    · simp [hd] at h
    · simp only [hd, if_neg, Bool.false_eq_true, not_false_iff, if_false,
        Option.some.injEq, Prod.mk.injEq] at h
      obtain ⟨hd1, _⟩ := h
      subst hd1
      refine ⟨by simpa [List.isEmpty_iff] using hd, ?_⟩
      rw [List.all_eq_true]
      intro c hc
      exact List.mem_takeWhile_imp hc
  · rw [if_neg hp] at h
    exact absurd h (by simp)

/-- The captured group of any leftmost match is a non-empty digit run. -/
theorem findVoiceCmd_digits :
    ∀ {s pre d rest : List Char}, findVoiceCmd s = some (pre, d, rest) →
      d ≠ [] ∧ d.all Char.isDigit = true := by
  intro s
  induction s with
  | nil => intro pre d rest h; exact absurd h (by simp [findVoiceCmd])
  | cons c cs ih =>
    intro pre d rest h
    unfold findVoiceCmd at h
    cases hm : matchVoiceAt (c :: cs) with
    | some dr =>
      rw [hm] at h
      obtain ⟨d0, r0⟩ := dr
      simp only [Option.some.injEq, Prod.mk.injEq] at h
      obtain ⟨_, hd, hr⟩ := h
      subst hd
      exact matchVoiceAt_digits hm
    | none =>
      rw [hm] at h
      cases hf : findVoiceCmd cs with
      | some pdr =>
        rw [hf] at h
        obtain ⟨p0, d0, r0⟩ := pdr
        simp only [Option.some.injEq, Prod.mk.injEq] at h
        obtain ⟨_, hd, hr⟩ := h
        subst hd
        exact (ih hf)
      | none => rw [hf] at h; exact absurd h (by simp)

/-- Every odd-position entry of the split list (a captured group) is a
non-empty digit run. -/
theorem oddEntries_splitVoiceAux :
    ∀ (fuel : Nat) (s : List Char),
      ∀ d ∈ oddEntries (splitVoiceAux fuel s), d ≠ [] ∧ d.all Char.isDigit = true
  | 0, s => by simp [splitVoiceAux, oddEntries]
  | fuel + 1, s => by
    unfold splitVoiceAux
    cases hf : findVoiceCmd s with
    | none => simp [oddEntries]
    | some pdr =>
      obtain ⟨pre, d0, rest⟩ := pdr
      intro d hd
      simp only [oddEntries] at hd
      rcases List.mem_cons.mp hd with h | h
      · subst h; exact findVoiceCmd_digits hf
      · exact oddEntries_splitVoiceAux fuel rest d h

/-- Strings all of whose characters are non-space are fixed by
`pyStrip`. -/
theorem pyStrip_of_no_space {s : List Char}
    (h : ∀ c ∈ s, pyIsSpace c = false) : pyStrip s = s := by
  have hdw : ∀ (t : List Char), (∀ c ∈ t, pyIsSpace c = false) →
      t.dropWhile pyIsSpace = t := by
    intro t ht
    cases t with
    | nil => rfl
    | cons c cs => simp [List.dropWhile, ht c (by simp)]
  unfold pyStrip
  rw [hdw s h, hdw s.reverse (by intro c hc; exact h c (List.mem_reverse.mp hc)),
    List.reverse_reverse]

/-- Python whitespace characters are not digits. -/
theorem not_digit_of_pyIsSpace {c : Char} (h : pyIsSpace c = true) :
    c.isDigit = false := by
  unfold pyIsSpace at h
  simp only [Bool.or_eq_true, decide_eq_true_eq] at h
  rcases h with ((((h | h) | h) | h) | h) | h <;> subst h <;> decide

/-- Digits are not Python whitespace. -/
theorem pyIsSpace_of_digit {c : Char} (h : c.isDigit = true) :
    pyIsSpace c = false := by
  cases hs : pyIsSpace c
  · rfl
  · have := not_digit_of_pyIsSpace hs
    rw [this] at h
    exact absurd h (by simp)

/-- A non-empty digit run is fixed by stripping. -/
theorem pyStrip_digits {d : List Char} (h : d.all Char.isDigit = true) :
    pyStrip d = d := by
  apply pyStrip_of_no_space
  intro c hc
  exact pyIsSpace_of_digit (List.all_eq_true.mp h c hc)

/-- Counting over a list splits into its even and odd positions. -/
theorem countP_evenOdd {α : Type} (pred : α → Bool) :
    ∀ l : List α,
      l.countP pred = (evenEntries l).countP pred + (oddEntries l).countP pred
  | [] => by simp [evenEntries, oddEntries]
  | [a] => by simp [evenEntries, oddEntries]
  | a :: b :: rest => by
    have ih := countP_evenOdd pred rest
    simp only [evenEntries, oddEntries, List.countP_cons]
    omega

/-- Odd entries of the split never satisfy `emitsSegment`: they are
non-empty digit runs, hence stripped to themselves and digit-leading. -/
theorem oddEntries_not_emits {content : List Char} {d : List Char}
    (hd : d ∈ oddEntries (splitVoice content)) : emitsSegment d = false := by
  obtain ⟨hne, hdig⟩ := oddEntries_splitVoiceAux content.length content d hd
  have hstrip : pyStrip d = d := pyStrip_digits hdig
  have hsd : startsWithDigit d = true := by
    cases d with
    | nil => exact absurd rfl hne
    | cons c cs =>
      have := List.all_eq_true.mp hdig c (by simp)
      simpa [startsWithDigit] using this
  simp [emitsSegment, hstrip, hsd]

/-- C1 as stated counts every non-empty chunk; the parser drops
digit-leading text chunks, so the counts disagree on the one-chunk
document `"42"` (zero segments, one non-empty non-directive chunk). -/
theorem C1_counterexample :
    ¬ ((parse_input_file ("42".toList) 0).length
        = (evenEntries (splitVoice (normalizeNewlines ("42".toList)))).countP
            (fun p => !(pyStrip p).isEmpty)) := by
  decide

/-- C1 (amended): the parser emits exactly one Segment per non-empty,
non-directive chunk whose stripped text does not start with a decimal
digit; digit-leading chunks are consumed as voice-switch data and emit
no Segment. -/
theorem C1_amended (content : List Char) (v0 : Nat) :
    (parse_input_file content v0).length
      = (evenEntries (splitVoice (normalizeNewlines content))).countP emitsSegment := by
  unfold parse_input_file
  rw [parseLoop_length, countP_evenOdd]
  have hodd :
      (oddEntries (splitVoice (normalizeNewlines content))).countP emitsSegment = 0 := by
    rw [List.countP_eq_zero]
    intro d hd
    simp [oddEntries_not_emits hd]
  omega

/-- C2: the documented three-voice scenario parses to exactly the three
expected segments, in order. -/
theorem C2_scenario :
    parse_input_file ("Hello. /voice=1 World. /voice=0 Done.".toList) 0
      = [{ text := "Hello.".toList, voice_index := 0 },
         { text := "World.".toList, voice_index := 1 },
         { text := "Done.".toList, voice_index := 0 }] := by
  decide

/-! ## Digit-chunk consumption (C10) -/

/-- A non-empty all-digit string is a valid `int()` literal. -/
theorem pyIntDigitsValid_all :
    ∀ s : List Char, s ≠ [] → s.all Char.isDigit = true →
      pyIntDigitsValid s = true
  | [], h, _ => absurd rfl h
  | [c], _, h => by
    simp only [List.all_cons, List.all_nil, Bool.and_true] at h
    simp [pyIntDigitsValid, h]
  | c :: d :: rest, _, h => by
    simp only [List.all_cons, Bool.and_eq_true] at h
    obtain ⟨hc, hd, hrest⟩ := h
    have hdu : d ≠ '_' := by
      intro he; subst he; exact absurd hd (by decide)
    have := pyIntDigitsValid_all (d :: rest) (by simp)
      (by simp [List.all_cons, hd, hrest])
    simp [pyIntDigitsValid, hc, hdu, this]

/-- Running `int()` on a non-empty digit run returns its decimal value. -/
theorem pyIntParse_digits {s : List Char} (h1 : s ≠ [])
    (h2 : s.all Char.isDigit = true) : pyIntParse s = some (digitsVal s) := by
  unfold pyIntParse
  rw [pyIntDigitsValid_all s h1 h2, if_pos rfl]
  have : s.filter (fun c => c ≠ '_') = s := by
    rw [List.filter_eq_self]
    intro c hc
    have := List.all_eq_true.mp h2 c hc
    simp only [ne_eq, decide_eq_true_eq]
    intro he; subst he; exact absurd this (by decide)
  rw [this]

/-- C10: a chunk whose stripped content is a pure digit run — whether it
came from a captured `/voice=` group or was plain text — is consumed by
the scan loop as a voice switch: the cursor becomes its decimal value
and no Segment is emitted for it. -/
theorem C10_digit_chunk (chunk : List Char) (rest : List (List Char)) (cur : Nat)
    (h1 : pyStrip chunk ≠ [])
    (h2 : (pyStrip chunk).all Char.isDigit = true) :
    parseLoop (chunk :: rest) cur = parseLoop rest (digitsVal (pyStrip chunk)) := by
  have hsd : startsWithDigit (pyStrip chunk) = true := by
    cases hp : pyStrip chunk with
    | nil => exact absurd hp h1
    | cons c cs =>
      have := List.all_eq_true.mp (hp ▸ h2) c (by simp)
      simpa [startsWithDigit] using this
  simp [parseLoop, h1, voiceCmdMatches_append, hsd, pyIntParse_digits h1 h2]

/-- Witness for C10 at a concrete chunk: `" 7 "` followed by the text
chunk `"Hi"` is consumed, setting the cursor to 7. -/
theorem C10_witness :
    pyStrip (" 7 ".toList) ≠ [] ∧ (pyStrip (" 7 ".toList)).all Char.isDigit = true
      ∧ parseLoop ([" 7 ".toList, "Hi".toList]) 3
          = parseLoop (["Hi".toList]) (digitsVal (pyStrip (" 7 ".toList))) :=
  ⟨by decide, by decide,
    C10_digit_chunk (" 7 ".toList) (["Hi".toList]) 3 (by decide) (by decide)⟩

/-! ## Catalog lookup (C6) -/

/-- C6 as stated is false: the lookup is a Python list subscript inside
try/except, so the negative index `-1` — which is the index of no
catalog entry — still returns a voice (the last one) instead of
absent. -/
theorem C6_counterexample :
    (get_voice_by_index engineOne (-1)).isSome = true
      ∧ ∀ v ∈ engineOne.unified_voices, (v.index : Int) ≠ -1 := by
  decide

/-- C6 (amended): `get_voice_by_index` returns absent exactly when the
index is `≥` the catalog size or `< -size`; indices in `[-size, 0)`
address entries from the end, Python-style. -/
theorem C6_amended (e : Engine) (i : Int) :
    get_voice_by_index e i = none ↔
      ((e.unified_voices.length : Int) ≤ i
        ∨ i < -(e.unified_voices.length : Int)) := by
  simp only [get_voice_by_index, pyListGet]
  by_cases h : i < 0
  · simp only [if_pos h]
    by_cases h2 : (i + e.unified_voices.length : Int) < 0
    · simp only [if_pos h2]
      constructor
      · intro _; right; omega
      · intro _; trivial
    · simp only [if_neg h2, List.getElem?_eq_none_iff]
      omega
  · simp only [if_neg h, if_neg (show ¬(i < 0) from h), List.getElem?_eq_none_iff]
    omega

/-! ## Segment-loop lemmas -/

/-- The loop produces one attempt per segment. -/
theorem runSegments_length (e : Engine) (k : List Char → Bool) :
    ∀ (segs : List Segment) (i : Nat),
      (runSegments e k i segs).length = segs.length
  | [], _ => rfl
  | _ :: rest, i => by
    simp [runSegments, runSegments_length e k rest (i + 1)]

/-- The attempt at position `j` of the loop started at `i` is the
attempt for segment `j` with absolute number `i + j`. -/
theorem runSegments_getElem (e : Engine) (k : List Char → Bool) :
    ∀ (segs : List Segment) (i j : Nat),
      (runSegments e k i segs)[j]?
        = (segs[j]?).map (fun s => attemptSeg e k (i + j) s)
  | [], i, j => by simp [runSegments]
  | s :: rest, i, 0 => by simp [runSegments]
  | s :: rest, i, j + 1 => by
    simp only [runSegments, List.getElem?_cons_succ]
    rw [runSegments_getElem e k rest (i + 1) j]
    have : i + 1 + j = i + (j + 1) := by omega
    rw [this]

/-- The successful temp files, in loop order, are exactly the successful
attempts over segment positions in increasing order. -/
theorem runSegments_filterMap (e : Engine) (k : List Char → Bool) :
    ∀ (segs : List Segment) (i : Nat),
      (runSegments e k i segs).filterMap SegAttempt.result
        = (List.range segs.length).filterMap
            (fun j => (segs[j]?).bind (fun s => (attemptSeg e k (i + j) s).result))
  | [], _ => by simp [runSegments]
  | s :: rest, i => by
    have hstep :
        (List.range rest.length).filterMap
            ((fun j => ((s :: rest)[j]?).bind
              (fun t => (attemptSeg e k (i + j) t).result)) ∘ Nat.succ)
          = (runSegments e k (i + 1) rest).filterMap SegAttempt.result := by
      rw [runSegments_filterMap e k rest (i + 1)]
      apply List.filterMap_congr
      intro j _
      have harith : i + (j + 1) = i + 1 + j := by omega
      simp only [Function.comp_apply, Nat.succ_eq_add_one,
        List.getElem?_cons_succ, harith]
    rw [List.length_cons, List.range_succ_eq_map]
    simp only [runSegments]
    cases hres : (attemptSeg e k i s).result with
    | none =>
      rw [List.filterMap_cons_none hres]
      conv_rhs => rw [List.filterMap_cons]
      simp only [List.getElem?_cons_zero, Option.some_bind, Nat.add_zero, hres]
      rw [List.filterMap_map, hstep]
    | some b =>
      rw [List.filterMap_cons_some hres]
      conv_rhs => rw [List.filterMap_cons]
      simp only [List.getElem?_cons_zero, Option.some_bind, Nat.add_zero, hres]
      rw [List.filterMap_map, hstep]

/-! ## Cleanup-loop lemmas -/

/-- When every removal succeeds, the cleanup loop removes all files and
raises nothing. -/
theorem cleanupLoop_allOk (rm : List Char → Bool) :
    ∀ l : List (List Char), (∀ p ∈ l, rm p = true) →
      cleanupLoop rm l = (l, none)
  | [], _ => rfl
  | p :: rest, h => by
    have hp := h p (by simp)
    have hr := cleanupLoop_allOk rm rest (fun q hq => h q (by simp [hq]))
    simp [cleanupLoop, hp, hr]

/-- The cleanup loop raises no exception iff every removal succeeds. -/
theorem cleanupLoop_none_iff (rm : List Char → Bool) :
    ∀ l : List (List Char),
      (cleanupLoop rm l).2 = none ↔ ∀ p ∈ l, rm p = true
  | [] => by simp [cleanupLoop]
  | p :: rest => by
    by_cases hp : rm p = true
    · simp [cleanupLoop, hp, cleanupLoop_none_iff rm rest]
    · simp only [cleanupLoop, if_neg hp]
      constructor
      · intro h; exact absurd h (by simp)
      · intro h; exact absurd (h p (by simp)) hp

/-! ## Pipeline claims -/

/-- C3: whenever the pipeline produces an artifact (and the audio
decoder works on every file), the artifact audio is the concatenation of
the decoded audio of exactly the successfully synthesized segments,
taken in increasing segment position — dropping a failed segment never
reorders the survivors. -/
theorem C3_assembly_order (e : Engine) (o : Oracles)
    (content out pth fmt : List Char) (audio : List Int)
    (hdec : ∀ p, o.decodeOk p = true)
    (hart : (process_and_concatenate e o content out).artifact
      = some (pth, fmt, audio)) :
    audio
      = ((List.range (parse_input_file content pipelineDefaultVoice).length).filterMap
          (fun j => (attemptAt e o.saveOk (parse_input_file content pipelineDefaultVoice) j).map
            o.decode)).flatten := by
  by_cases hseg : parse_input_file content pipelineDefaultVoice = []
  · simp [process_and_concatenate, hseg] at hart
  · by_cases htf :
        (runSegments e o.saveOk 0 (parse_input_file content pipelineDefaultVoice)).filterMap
          SegAttempt.result = []
    · simp [process_and_concatenate, hseg, htf] at hart
    · simp only [process_and_concatenate, if_neg hseg, if_neg htf] at hart
      cases hex : o.exportOk with
      | false => simp [hex] at hart
      | true =>
        simp only [hex, if_pos, if_true, Option.some.injEq, Prod.mk.injEq] at hart
        obtain ⟨-, -, haudio⟩ := hart
        rw [← haudio]
        have hfil :
            (List.filterMap SegAttempt.result
                (runSegments e o.saveOk 0 (parse_input_file content pipelineDefaultVoice))).filter
              o.decodeOk
              = List.filterMap SegAttempt.result
                (runSegments e o.saveOk 0 (parse_input_file content pipelineDefaultVoice)) := by
          rw [List.filter_eq_self]
          intro a _
          exact hdec a
        rw [hfil, runSegments_filterMap, List.map_filterMap]
        apply congrArg
        apply List.filterMap_congr
        intro j _
        simp [attemptAt, Nat.zero_add]

/-- Witness for C3: a two-segment document where both segments succeed;
the artifact is the decode of segment 0's file followed by the decode of
segment 1's file. -/
theorem C3_witness :
    (∀ p, oraclesOk.decodeOk p = true)
      ∧ (process_and_concatenate engineOne oraclesOk
            ("Hi. /voice=0 Bye.".toList) ("out.wav".toList)).artifact
          = some ("out.wav".toList, "wav".toList, [31, 31])
      ∧ [31, 31]
        = ((List.range (parse_input_file ("Hi. /voice=0 Bye.".toList)
              pipelineDefaultVoice).length).filterMap
            (fun j => (attemptAt engineOne oraclesOk.saveOk
              (parse_input_file ("Hi. /voice=0 Bye.".toList) pipelineDefaultVoice) j).map
                oraclesOk.decode)).flatten :=
  ⟨fun _ => rfl, by decide,
    C3_assembly_order engineOne oraclesOk ("Hi. /voice=0 Bye.".toList)
      ("out.wav".toList) ("out.wav".toList) ("wav".toList) [31, 31]
      (fun _ => rfl) (by decide)⟩

/-- C4: if no attempt yields audio the run is reported as failed
(`allFailed`, or nothing-to-do when there were no segments) and export
is never reached — no artifact; if some attempt succeeds, the export
step is reached. -/
theorem C4_terminal_states (e : Engine) (o : Oracles) (content out : List Char) :
    ((∀ a ∈ (process_and_concatenate e o content out).attempts, a.result = none) →
        (process_and_concatenate e o content out).artifact = none
        ∧ (process_and_concatenate e o content out).exportTargetUsed = none
        ∧ ((process_and_concatenate e o content out).segments ≠ [] →
            (process_and_concatenate e o content out).allFailed = true))
    ∧ ((∃ a ∈ (process_and_concatenate e o content out).attempts, a.result ≠ none) →
        (process_and_concatenate e o content out).exportTargetUsed ≠ none
        ∧ (process_and_concatenate e o content out).allFailed = false) := by
  by_cases hseg : parse_input_file content pipelineDefaultVoice = []
  · constructor
    · intro _
      simp [process_and_concatenate, hseg]
    · intro hex
      simp [process_and_concatenate, hseg] at hex
  · by_cases htf :
        (runSegments e o.saveOk 0 (parse_input_file content pipelineDefaultVoice)).filterMap
          SegAttempt.result = []
    · constructor
      · intro _
        simp [process_and_concatenate, hseg, htf]
      · intro hex
        simp only [process_and_concatenate, if_neg hseg, htf, if_pos, if_true] at hex
        obtain ⟨a, ha, hra⟩ := hex
        exact absurd (List.forall_none_of_filterMap_eq_nil htf a ha) hra
    · constructor
      · intro hall
        simp only [process_and_concatenate, if_neg hseg, if_neg htf] at hall ⊢
        exact absurd (List.filterMap_eq_nil_iff.mpr hall) htf
      · intro _
        simp [process_and_concatenate, hseg, htf]

/-- Witness for C4 at a run in which the only segment fails to
synthesize: the hypothesis of the first branch holds and the run is
`allFailed` with no artifact. -/
theorem C4_witness :
    (∀ a ∈ (process_and_concatenate engineOne
        { oraclesOk with saveOk := fun _ => false } ("Hi.".toList)
          ("out.wav".toList)).attempts, a.result = none)
    ∧ ((process_and_concatenate engineOne
          { oraclesOk with saveOk := fun _ => false } ("Hi.".toList)
            ("out.wav".toList)).artifact = none
        ∧ (process_and_concatenate engineOne
            { oraclesOk with saveOk := fun _ => false } ("Hi.".toList)
              ("out.wav".toList)).exportTargetUsed = none
        ∧ ((process_and_concatenate engineOne
              { oraclesOk with saveOk := fun _ => false } ("Hi.".toList)
                ("out.wav".toList)).segments ≠ [] →
            (process_and_concatenate engineOne
              { oraclesOk with saveOk := fun _ => false } ("Hi.".toList)
                ("out.wav".toList)).allFailed = true)) :=
  ⟨by decide,
    (C4_terminal_states engineOne { oraclesOk with saveOk := fun _ => false }
      ("Hi.".toList) ("out.wav".toList)).1 (by decide)⟩

/-- C5: a segment whose voice index is out of range (`≥` catalog size)
is not dropped: the loop substitutes the default voice index, flags the
warning, still calls `synthesize_segment`, and the run keeps one attempt
record per segment. -/
theorem C5_out_of_range (e : Engine) (o : Oracles) (content out : List Char)
    (i : Nat) (s : Segment)
    (h1 : (parse_input_file content pipelineDefaultVoice)[i]? = some s)
    (h2 : e.unified_voices.length ≤ s.voice_index) :
    (process_and_concatenate e o content out).attempts[i]?
        = some { warned := true, resolved := pipelineDefaultVoice
                 result := synthesize_segment e o.saveOk s.text
                   pipelineDefaultVoice (segBasePath i) }
      ∧ (process_and_concatenate e o content out).attempts.length
          = (parse_input_file content pipelineDefaultVoice).length := by
  have hseg : parse_input_file content pipelineDefaultVoice ≠ [] := by
    intro hnil
    rw [hnil] at h1
    simp at h1
  have hatt : (process_and_concatenate e o content out).attempts
      = runSegments e o.saveOk 0 (parse_input_file content pipelineDefaultVoice) := by
    by_cases htf :
        (runSegments e o.saveOk 0 (parse_input_file content pipelineDefaultVoice)).filterMap
          SegAttempt.result = []
    · simp [process_and_concatenate, hseg, htf]
    · simp [process_and_concatenate, hseg, htf]
  rw [hatt, runSegments_getElem, runSegments_length]
  constructor
  · rw [h1]
    simp [attemptSeg, h2]
  · rfl

/-- Witness for C5: the document requests voice 5 against a one-voice
catalog; the attempt record substitutes voice 0 and still synthesizes. -/
theorem C5_witness :
    (parse_input_file ("/voice=5 Hi.".toList) pipelineDefaultVoice)[0]?
        = some { text := "Hi.".toList, voice_index := 5 }
      ∧ engineOne.unified_voices.length ≤ 5
      ∧ ((process_and_concatenate engineOne oraclesOk ("/voice=5 Hi.".toList)
            ("out.wav".toList)).attempts[0]?
          = some { warned := true, resolved := pipelineDefaultVoice
                   result := synthesize_segment engineOne oraclesOk.saveOk
                     ("Hi.".toList) pipelineDefaultVoice (segBasePath 0) }
        ∧ (process_and_concatenate engineOne oraclesOk ("/voice=5 Hi.".toList)
            ("out.wav".toList)).attempts.length
            = (parse_input_file ("/voice=5 Hi.".toList) pipelineDefaultVoice).length) :=
  ⟨by decide, by decide,
    C5_out_of_range engineOne oraclesOk ("/voice=5 Hi.".toList) ("out.wav".toList)
      0 { text := "Hi.".toList, voice_index := 5 } (by decide) (by decide)⟩

/-! ## Export failure and cleanup (C7, C8) -/

/-- Oracles identical to `oraclesOk` except that the export call fails. -/
def oraclesExportFail : Oracles := { oraclesOk with exportOk := false }

/-- Oracles identical to `oraclesOk` except that every `os.remove`
raises. -/
def oraclesRemoveFail : Oracles := { oraclesOk with removeOk := fun _ => false }

/-- C7 as stated is false: after a failed export the cleanup step still
runs unconditionally and removes the per-segment files, so the
intermediate audio does not remain available. -/
theorem C7_counterexample :
    (process_and_concatenate engineOne oraclesExportFail ("Hi.".toList)
        ("out.wav".toList)).artifact = none
      ∧ (process_and_concatenate engineOne oraclesExportFail ("Hi.".toList)
          ("out.wav".toList)).temp_files ≠ []
      ∧ (process_and_concatenate engineOne oraclesExportFail ("Hi.".toList)
          ("out.wav".toList)).filesRemoved
        = (process_and_concatenate engineOne oraclesExportFail ("Hi.".toList)
            ("out.wav".toList)).temp_files := by
  decide

/-- C7 (amended): when the export fails the job yields no artifact, but
the cleanup step still runs and (when removal succeeds) deletes every
intermediate per-segment file rather than leaving them for retry. -/
theorem C7_amended (e : Engine) (o : Oracles) (content out : List Char)
    (hrm : ∀ p, o.removeOk p = true) (hex : o.exportOk = false) :
    (process_and_concatenate e o content out).artifact = none
    ∧ (process_and_concatenate e o content out).filesRemoved
        = (process_and_concatenate e o content out).temp_files := by
  by_cases hseg : parse_input_file content pipelineDefaultVoice = []
  · simp [process_and_concatenate, hseg]
  · by_cases htf :
        (runSegments e o.saveOk 0 (parse_input_file content pipelineDefaultVoice)).filterMap
          SegAttempt.result = []
    · simp [process_and_concatenate, hseg, htf]
    · simp only [process_and_concatenate, if_neg hseg, if_neg htf, hex,
        Bool.false_eq_true, if_false]
      constructor
      · trivial
      · rw [cleanupLoop_allOk o.removeOk _ (fun p _ => hrm p)]

/-- Witness for C7 at a concrete one-segment run with a failing
export. -/
theorem C7_witness :
    (∀ p, oraclesExportFail.removeOk p = true)
      ∧ oraclesExportFail.exportOk = false
      ∧ ((process_and_concatenate engineOne oraclesExportFail ("Hi.".toList)
            ("out.wav".toList)).artifact = none
        ∧ (process_and_concatenate engineOne oraclesExportFail ("Hi.".toList)
            ("out.wav".toList)).filesRemoved
            = (process_and_concatenate engineOne oraclesExportFail ("Hi.".toList)
                ("out.wav".toList)).temp_files) :=
  ⟨fun _ => rfl, rfl,
    C7_amended engineOne oraclesExportFail ("Hi.".toList) ("out.wav".toList)
      (fun _ => rfl) rfl⟩

/-- C8 as stated is false: a failing `os.remove` during cleanup is not
caught anywhere in `process_and_concatenate`, so it escapes the job as
an uncaught exception (the interactive menu reports it as an unexpected
error) instead of being a warning; the same run with working removal
raises nothing. -/
theorem C8_counterexample :
    (process_and_concatenate engineOne oraclesRemoveFail ("Hi.".toList)
        ("out.wav".toList)).cleanupError
        = some ("tts_temp_segments/segment_0.mp3".toList)
      ∧ (process_and_concatenate engineOne oraclesRemoveFail ("Hi.".toList)
          ("out.wav".toList)).artifact ≠ none
      ∧ (process_and_concatenate engineOne oraclesOk ("Hi.".toList)
          ("out.wav".toList)).cleanupError = none := by
  decide

/-- C8 (amended): a removal failure during cleanup raises an uncaught
exception out of the job (the run ends with a cleanup error exactly when
some temp file's removal fails), while the artifact — written before
cleanup — is unaffected by removal failures. -/
theorem C8_amended (e : Engine) (o : Oracles) (content out : List Char)
    (hrd : o.rmdirOk = true) :
    ((process_and_concatenate e o content out).cleanupError = none ↔
        ∀ p ∈ (process_and_concatenate e o content out).temp_files,
          o.removeOk p = true)
    ∧ (process_and_concatenate e o content out).artifact
        = (process_and_concatenate e { o with removeOk := fun _ => true }
            content out).artifact := by
  by_cases hseg : parse_input_file content pipelineDefaultVoice = []
  · simp [process_and_concatenate, hseg]
  · by_cases htf :
        (runSegments e o.saveOk 0 (parse_input_file content pipelineDefaultVoice)).filterMap
          SegAttempt.result = []
    · simp [process_and_concatenate, hseg, htf]
    · simp only [process_and_concatenate, if_neg hseg, if_neg htf]
      constructor
      · cases hcl : (cleanupLoop o.removeOk
            ((runSegments e o.saveOk 0
              (parse_input_file content pipelineDefaultVoice)).filterMap
                SegAttempt.result)).2 with
        | none =>
          simp only [hcl, hrd, if_true]
          constructor
          · intro _
            exact (cleanupLoop_none_iff o.removeOk _).mp hcl
          · intro _; trivial
        | some p =>
          simp only [hcl]
          constructor
          · intro hcontra; exact absurd hcontra (by simp)
          · intro hall
            have := (cleanupLoop_none_iff o.removeOk _).mpr hall
            rw [hcl] at this
            exact absurd this (by simp)
      · trivial

/-- Witness for C8 applied at the failing-removal run. -/
theorem C8_witness :
    oraclesRemoveFail.rmdirOk = true
      ∧ (((process_and_concatenate engineOne oraclesRemoveFail ("Hi.".toList)
            ("out.wav".toList)).cleanupError = none ↔
          ∀ p ∈ (process_and_concatenate engineOne oraclesRemoveFail ("Hi.".toList)
            ("out.wav".toList)).temp_files, oraclesRemoveFail.removeOk p = true)
        ∧ (process_and_concatenate engineOne oraclesRemoveFail ("Hi.".toList)
            ("out.wav".toList)).artifact
            = (process_and_concatenate engineOne
                { oraclesRemoveFail with removeOk := fun _ => true }
                ("Hi.".toList) ("out.wav".toList)).artifact) :=
  ⟨rfl, C8_amended engineOne oraclesRemoveFail ("Hi.".toList) ("out.wav".toList) rfl⟩

/-! ## Export extension selection (C9) -/

/-- Lower-casing only moves upper-case letters; it never turns a
non-dot character into a dot. -/
theorem toLower_ne_dot {c : Char} (h : c ≠ '.') : Char.toLower c ≠ '.' := by
  simp only [Char.toLower]
  by_cases hc : c.toNat ≥ 65 ∧ c.toNat ≤ 90
  · rw [if_pos hc]
    obtain ⟨hl, hh⟩ := hc
    obtain ⟨n, hn⟩ : ∃ n, c.toNat = n := ⟨_, rfl⟩
    rw [hn] at hl hh ⊢
    interval_cases n <;> decide
  · rw [if_neg hc]
    exact h

/-- The separator character never occurs in `afterLastMatch`. -/
theorem not_mem_afterLastMatch (ch : Char) (p : List Char) :
    ch ∉ afterLastMatch ch p := by
  intro hmem
  unfold afterLastMatch at hmem
  rw [List.mem_reverse] at hmem
  have := List.mem_takeWhile_imp hmem
  simp at this

/-- A splitext extension is empty, or a dot followed by a dot-free
tail. -/
theorem splitextExt_shape (p : List Char) :
    splitextExt p = [] ∨
      ∃ rest, splitextExt p = '.' :: rest ∧ '.' ∉ rest := by
  unfold splitextExt
  by_cases h : ((afterLastMatch '/' p).dropWhile (fun c => c = '.')).contains '.'
  · rw [if_pos h]
    exact Or.inr ⟨_, rfl, not_mem_afterLastMatch '.' _⟩
  · rw [if_neg h]
    exact Or.inl rfl

/-- Dropping a leading run of `ch` is the identity on lists avoiding `ch`. -/
theorem dropWhile_eq_self_of_not_mem {ch : Char} :
    ∀ {t : List Char}, ch ∉ t → t.dropWhile (fun c => c = ch) = t := by
  intro t ht
  cases t with
  | nil => rfl
  | cons c cs =>
    have hc : ¬(c = ch) := fun he => ht (by simp [he])
    simp [List.dropWhile_cons, hc]

/-- Stripping `ch` from `ch :: l` removes exactly the head when `ch`
does not occur in `l`. -/
theorem stripChar_cons_of_not_mem {ch : Char} {l : List Char} (h : ch ∉ l) :
    stripChar ch (ch :: l) = l := by
  unfold stripChar
  rw [List.dropWhile_cons, if_pos (by simp)]
  rw [dropWhile_eq_self_of_not_mem h,
    dropWhile_eq_self_of_not_mem (by simpa using h), List.reverse_reverse]

/-- Lower-casing preserves dot-freeness. -/
theorem dot_not_mem_map_toLower {l : List Char} (h : '.' ∉ l) :
    '.' ∉ l.map Char.toLower := by
  intro hmem
  rw [List.mem_map] at hmem
  obtain ⟨c, hc, hlow⟩ := hmem
  exact toLower_ne_dot (fun he => h (he ▸ hc)) hlow

/-- The source's `.lower().strip('.')` of the splitext extension equals
the claim's reading: the extension lower-cased without its leading
dot. -/
theorem stripChar_toLower_splitext (p : List Char) :
    stripChar '.' ((splitextExt p).map Char.toLower) = claimedExtension p := by
  unfold claimedExtension
  rcases splitextExt_shape p with h | ⟨rest, h, hrest⟩
  · rw [h]; rfl
  · rw [h]
    simp only [List.map_cons, List.drop_succ_cons, List.drop_zero]
    have hlowdot : Char.toLower '.' = '.' := by decide
    rw [hlowdot, stripChar_cons_of_not_mem (dot_not_mem_map_toLower hrest)]

/-- C9: whenever the export step is reached, the (path, format) handed
to the exporter follow the claim: with no (non-trivial) extension the
default `.wav` is appended to the path and the format is `wav`;
otherwise the path is kept and the format is the extension lower-cased
without its leading dot. -/
theorem C9_export_extension (e : Engine) (o : Oracles)
    (content out pth fmt : List Char)
    (h : (process_and_concatenate e o content out).exportTargetUsed
      = some (pth, fmt)) :
    (claimedExtension out = [] → pth = out ++ ".wav".toList ∧ fmt = "wav".toList)
    ∧ (claimedExtension out ≠ [] → pth = out ∧ fmt = claimedExtension out) := by
  by_cases hseg : parse_input_file content pipelineDefaultVoice = []
  · simp [process_and_concatenate, hseg] at h
  · by_cases htf :
        (runSegments e o.saveOk 0 (parse_input_file content pipelineDefaultVoice)).filterMap
          SegAttempt.result = []
    · simp [process_and_concatenate, hseg, htf] at h
    · simp only [process_and_concatenate, if_neg hseg, if_neg htf,
        Option.some.injEq] at h
      rw [stripChar_toLower_splitext] at h
      by_cases hext : claimedExtension out = []
      · rw [if_pos hext, Prod.mk.injEq] at h
        constructor
        · intro _
          exact ⟨h.1.symm, h.2.symm⟩
        · intro hne
          exact absurd hext hne
      · rw [if_neg hext, Prod.mk.injEq] at h
        constructor
        · intro hcontra
          exact absurd hcontra hext
        · intro _
          exact ⟨h.1.symm, h.2.symm⟩

/-- Witness for C9 at a run exporting to `song.WAV`: the extension is
non-empty and the format is `wav`. -/
theorem C9_witness :
    ((process_and_concatenate engineOne oraclesOk ("Hi.".toList)
        ("song.WAV".toList)).exportTargetUsed
        = some ("song.WAV".toList, "wav".toList))
      ∧ ((claimedExtension ("song.WAV".toList) = [] →
            "song.WAV".toList = "song.WAV".toList ++ ".wav".toList
              ∧ "wav".toList = "wav".toList)
        ∧ (claimedExtension ("song.WAV".toList) ≠ [] →
            "song.WAV".toList = "song.WAV".toList
              ∧ "wav".toList = claimedExtension ("song.WAV".toList))) :=
  ⟨by decide,
    C9_export_extension engineOne oraclesOk ("Hi.".toList) ("song.WAV".toList)
      ("song.WAV".toList) ("wav".toList) (by decide)⟩

end Loquendont
